import Mathlib

/-!
Verification development for `dlc_run/dlc_run.py`, a command-line wrapper
that assembles a DLC job-submission command line from parsed arguments.

The Python source is shallowly embedded:
* Python string helpers (`str.strip`, `str.split`, membership of a char)
  are implemented over `List Char` so that all definitions compute.
* Subprocess calls are modelled by passing their result in explicitly as
  an `Except String String` (error = a raised `subprocess.SubprocessError`,
  ok = captured stdout); printing is not modelled beyond the returned
  outcome carrying the message.
* The regex `\|\s*<partition>\s*\|\s*([\w]+)\s*\|` used by
  `get_workspace_id` is embedded as a backtracking matcher specialised to
  this pattern, with the character classes `\s` and `\w` restricted to
  their ASCII parts.
* Machine integers from `argparse` (`type=int`) are modelled as `Int`;
  Python's floor division `//` is `Int.fdiv`.
-/

namespace DlcRun

/-- ASCII part of Python's whitespace (`str.strip`, regex `\s`):
space, tab, newline, carriage return, vertical tab, form feed. -/
def isPyWs (c : Char) : Bool :=
  c = ' ' || c = '\t' || c = '\n' || c = '\r' || c = '\x0b' || c = '\x0c'

/-- ASCII part of the regex class `\w`: alphanumeric or underscore. -/
def isWordChar (c : Char) : Bool :=
  c.isAlphanum || c = '_'

/-- Python `str.strip()` on a list of characters: drop leading and trailing
whitespace. -/
def stripList (l : List Char) : List Char :=
  ((l.dropWhile isPyWs).reverse.dropWhile isPyWs).reverse

/-- Python `s.strip()`. -/
def pyStrip (s : String) : String :=
  String.mk (stripList s.toList)

/-- Helper for `pySplitChar`: accumulate the current segment (reversed). -/
def splitAux (sep : Char) : List Char → List Char → List String
  | [], acc => [String.mk acc.reverse]
  | c :: cs, acc =>
    if c = sep then String.mk acc.reverse :: splitAux sep cs []
    else splitAux sep cs (c :: acc)

/-- Python `s.split(sep)` for a single-character separator: keeps empty
segments, `"".split(sep) = [""]`. -/
def pySplitChar (sep : Char) (s : String) : List String :=
  splitAux sep s.toList []

/-- Python `s.split(sep, 1)` restricted to the case used by the source:
`none` when the separator does not occur (Python's `sep in s` guard is
false), otherwise the part before the first separator and the rest. -/
def splitFirstAux (sep : Char) : List Char → List Char → Option (String × String)
  | [], _ => none
  | c :: cs, acc =>
    if c = sep then some (String.mk acc.reverse, String.mk cs)
    else splitFirstAux sep cs (c :: acc)

/-- Python `line.split()` (no separator): split on runs of whitespace,
discarding empty tokens. -/
def pySplitWsAux : List Char → List Char → List String
  | [], acc => if acc = [] then [] else [String.mk acc.reverse]
  | c :: cs, acc =>
    if isPyWs c then
      if acc = [] then pySplitWsAux cs []
      else String.mk acc.reverse :: pySplitWsAux cs []
    else pySplitWsAux cs (c :: acc)

def pySplitWs (s : String) : List String :=
  pySplitWsAux s.toList []

/-- Python `str(x)` for an optional string, as in
`f'/cpfs01/user/{os.getenv("USER")}'` (absent `USER` prints `None`). -/
def optStr : Option String → String
  | some s => s
  | none => "None"

/-- The module-level `HOME = f'/cpfs01/user/{os.getenv("USER")}'`. -/
def HOME (user : Option String) : String :=
  "/cpfs01/user/" ++ optStr user

/-! ## `parse_env_vars` (source lines 60-70) -/

/-- One `;`-separated segment: the body of the loop in `parse_env_vars`.
`if '=' in pair: key, value = pair.split('=', 1)` followed by
`key.strip()`, `value.strip()`; segments without `=` yield `none`. -/
def parse_pair (pair : String) : Option (String × String) :=
  match splitFirstAux '=' pair.toList [] with
  | some kv => some (pyStrip kv.1, pyStrip kv.2)
  | none => none

/-- Assignment `env_dict[key] = value` on a Python dict modelled as an association
list: an existing key keeps its position and gets the new value, a new
key is appended at the end. -/
def dictInsert (d : List (String × String)) (k v : String) :
    List (String × String) :=
  if d.any (fun kv => kv.1 == k) then
    d.map (fun kv => if kv.1 == k then (k, v) else kv)
  else
    d ++ [(k, v)]

/-- Function `parse_env_vars` from the source: fold every `;`-segment of every
`--env` value into the dict. -/
def parse_env_vars (env_vars : List String) : List (String × String) :=
  env_vars.foldl
    (fun env_dict item =>
      (pySplitChar ';' item).foldl
        (fun d pair =>
          match parse_pair pair with
          | some kv => dictInsert d kv.1 kv.2
          | none => d)
        env_dict)
    []

/-! ## conda helpers (source lines 31-57) -/

/-- Function `get_conda_envs`: `result` is the outcome of
`subprocess.run(['conda', 'env', 'list'], ..., check=True)`.
A `SubprocessError` is caught: a message is printed and `[]` returned
(modelled as `.ok []`).  On success every non-empty line not starting
with `#` contributes its first whitespace-separated token; a line of
pure whitespace would make `line.split()[0]` raise an `IndexError`,
modelled as `.error`. -/
def get_conda_envs (result : Except String String) :
    Except String (List String) :=
  match result with
  | .error _ => .ok []
  | .ok stdout =>
    (pySplitChar '\n' stdout).foldlM
      (fun envs line =>
        if line ≠ "" ∧ line.toList.head? ≠ some '#' then
          match (pySplitWs line).head? with
          | some tok => Except.ok (envs ++ [tok])
          | none => Except.error "IndexError: list index out of range"
        else
          Except.ok envs)
      []

/-- Function `validate_conda_env` with the discovered environment list and the
filesystem (`Path(value).exists()`) passed in explicitly.  An
`argparse.ArgumentTypeError` is modelled as `.error` with the exact
message. -/
def validate_conda_env (envs : List String) (path_exists : String → Bool)
    (value : String) : Except String String :=
  if envs.contains value || path_exists value || value == "" then
    .ok value
  else
    .error (value ++ " is not a valid conda environment. Available: " ++
      String.intercalate ", " envs)

/-! ### Specification-side view of `parse_env_vars`

`parsedPairs` lists every `KEY=VALUE` pair in reading order (after
splitting on `;`, dropping `=`-less segments, stripping); the theorems
for the claims relate `parse_env_vars` to the last value and the
first-occurrence order of keys in this flat list. -/

def pairsOfItem (item : String) : List (String × String) :=
  (pySplitChar ';' item).filterMap parse_pair

def parsedPairs (env_vars : List String) : List (String × String) :=
  (env_vars.map pairsOfItem).flatten

/-- Keep the first occurrence of every element, in order. -/
def dedupFirst : List String → List String
  | [] => []
  | a :: as => a :: dedupFirst (as.filter (fun x => x ≠ a))
termination_by l => l.length
decreasing_by
  simp only [List.length_cons]
  exact Nat.lt_succ_of_le (List.length_filter_le _ _)

/-- The value of the last pair with the given key, if any. -/
def lastVal (k : String) : List (String × String) → Option String
  | [] => none
  | kv :: ps =>
    match lastVal k ps with
    | some v => some v
    | none => if kv.1 = k then some kv.2 else none

/-- Folding `dictInsert` over a flat pair list (what `parse_env_vars`
amounts to once the nested loops are fused). -/
def pyDict (ps : List (String × String)) : List (String × String) :=
  ps.foldl (fun d kv => dictInsert d kv.1 kv.2) []

def keys (d : List (String × String)) : List String :=
  d.map Prod.fst

/-! ## the regex search of `get_workspace_id` (source lines 21-24)

The pattern is `\|\s*<partition>\s*\|\s*([\w]+)\s*\|` where the partition
is `re.escape`d, hence literal.  After the literal partition every
quantifier is deterministic (`\s`, `\w` and `|` are pairwise disjoint),
so only the first `\s*` needs backtracking: it can consume any number of
leading whitespace characters, longest first. -/

/-- Match `\s*\|\s*([\w]+)\s*\|` at the head of `cs`, returning the
captured group. -/
def matchTail (cs : List Char) : Option (List Char) :=
  let cs1 := cs.dropWhile isPyWs
  if cs1.head? = some '|' then
    let cs3 := cs1.tail.dropWhile isPyWs
    let cap := cs3.takeWhile isWordChar
    if cap = [] then none
    else
      if ((cs3.dropWhile isWordChar).dropWhile isPyWs).head? = some '|' then
        some cap
      else none
  else none

/-- Backtracking over the first `\s*`: try to read the literal partition
after `j` skipped whitespace characters, for `j` from the given bound
down to `0` (greedy order). -/
def tryOffsets (p rest : List Char) : Nat → Option (List Char)
  | 0 =>
    if p.isPrefixOf rest then matchTail (rest.drop p.length) else none
  | j + 1 =>
    let cand :=
      if p.isPrefixOf (rest.drop (j + 1)) then
        matchTail ((rest.drop (j + 1)).drop p.length)
      else none
    if cand.isSome then cand else tryOffsets p rest j

/-- Try the whole pattern anchored at the head of `cs`. -/
def matchAt (p : List Char) (cs : List Char) : Option (List Char) :=
  if cs.head? = some '|' then
    tryOffsets p cs.tail (cs.tail.takeWhile isPyWs).length
  else none

/-- Python `re.search`: try every start position from left to right. -/
def reSearch (p : List Char) : List Char → Option (List Char)
  | [] => none
  | c :: cs =>
    let m := matchAt p (c :: cs)
    if m.isSome then m else reSearch p cs

/-- The pure part of `get_workspace_id`: run the regex search over the
captured stdout and return `match.group(1).strip()`. -/
def extract_workspace_id (partition stdout : String) : Option String :=
  (reSearch partition.toList stdout.toList).map
    (fun cap => pyStrip (String.mk cap))

/-- Function `get_workspace_id` (source lines 10-28): a `SubprocessError` from the
lookup is caught (a message is printed) and `None` returned; otherwise
the regex search decides. -/
def get_workspace_id (partition : String) (lookup : Except String String) :
    Option String :=
  match lookup with
  | .error _ => none
  | .ok stdout => extract_workspace_id partition stdout

/-! ### Specification-side view of the regex

`PatternAt p cs cap` says the pattern
`\|\s*p\s*\|\s*([\w]+)\s*\|` matches a prefix of `cs` with capture
`cap`; `ContainsPattern` anchors it at an arbitrary position, i.e. "the
output contains a line `| p | cap |`". -/

abbrev AllWs (l : List Char) : Prop := ∀ c ∈ l, isPyWs c = true

abbrev AllWord (l : List Char) : Prop := ∀ c ∈ l, isWordChar c = true

/-- The `\s*\|\s*([\w]+)\s*\|` part of the pattern matches a prefix of
`cs` with capture `cap`. -/
def TailShape (cs cap : List Char) : Prop :=
  ∃ w2 w3 w4 rest,
    cs = w2 ++ '|' :: (w3 ++ (cap ++ (w4 ++ '|' :: rest))) ∧
    AllWs w2 ∧ AllWs w3 ∧ AllWs w4 ∧ cap ≠ [] ∧ AllWord cap

/-- The whole pattern matches a prefix of `cs` with capture `cap`. -/
def PatternAt (p cs cap : List Char) : Prop :=
  ∃ w1 t, cs = '|' :: (w1 ++ (p ++ t)) ∧ AllWs w1 ∧ TailShape t cap

/-- The pattern matches somewhere inside `cs` with capture `cap`. -/
def ContainsPattern (p cs cap : List Char) : Prop :=
  ∃ n, PatternAt p (cs.drop n) cap

/-! ## `main` (source lines 73-194) -/

/-- The parsed argument record (argparse defaults are noted per use
site; `type=int` fields are `Int`). -/
structure Args where
  job_name : String
  partition : String
  config : String
  dlc_path : String
  kind : String
  worker_count : Int
  worker_gpu : Int
  worker_cpu : Int
  worker_image : String
  worker_memory : Int
  interactive : Bool
  shell : String
  conda_env : String
  proxy : Bool
  env : List String
  task_cmds : List String
deriving Repr, DecidableEq

def home_cmd (user : Option String) : String :=
  "export HOME=" ++ HOME user

def shell_cmd (args : Args) : String :=
  if args.shell ≠ "none" then
    args.shell ++ " -c \"source ~/." ++ args.shell ++ "rc"
  else ""

def conda_cmd (args : Args) : String :=
  if args.conda_env ≠ "" then "conda activate " ++ args.conda_env else ""

def proxy_cmd (args : Args) : String :=
  if args.proxy then
    "export http_proxy=http://58.34.83.134:31128 && " ++
      "export https_proxy=http://58.34.83.134:31128"
  else
    "unset http_proxy;unset https_proxy"

def env_var_cmds (env : List String) : String :=
  String.intercalate " && "
    ((parse_env_vars env).map (fun kv => "export " ++ kv.1 ++ "=" ++ kv.2))

def env_cmds (args : Args) (user : Option String) : List String :=
  [home_cmd user, proxy_cmd args, env_var_cmds args.env,
    shell_cmd args, conda_cmd args].filter (fun cmd => cmd ≠ "")

def full_env_cmd (args : Args) (user : Option String) : String :=
  String.intercalate " && " (env_cmds args user)

/-- Source lines 172-174.  NOTE: the Python expression
`full_command = (f'...{env}...{cwd}...{task}') + '"' if shell_cmd else ''`
parses as a conditional expression, so the whole string (with the
closing quote appended) is kept only when `shell_cmd` is non-empty and
is the empty string otherwise. -/
def full_command (args : Args) (user : Option String) (cwd : String) :
    String :=
  if shell_cmd args ≠ "" then
    full_env_cmd args user ++ " && cd " ++ cwd ++ " && " ++
      pyStrip (String.intercalate " " args.task_cmds) ++ "\""
  else ""

/-- Source lines 176-190: the components of the submission command. -/
def dlc_command (args : Args) (workspace_id : String) (user : Option String)
    (cwd : String) : List String :=
  [args.dlc_path ++ " create job",
    "--config " ++ args.config,
    "--name " ++ args.job_name,
    "--kind " ++ args.kind,
    "--worker_count " ++ toString args.worker_count,
    "--worker_cpu " ++ toString args.worker_cpu,
    "--worker_gpu " ++ toString args.worker_gpu,
    "--worker_memory " ++ toString args.worker_memory,
    "--worker_image " ++ args.worker_image,
    "--workspace_id " ++ workspace_id,
    "--worker_shared_memory " ++ toString (Int.fdiv args.worker_memory 2),
    if args.interactive then "--interactive" else "",
    "--command '" ++ full_command args user cwd ++ "'"]

/-- Python `' '.join(filter(None, dlc_command))`. -/
def dlc_full_command (args : Args) (workspace_id : String)
    (user : Option String) (cwd : String) : String :=
  String.intercalate " "
    ((dlc_command args workspace_id user cwd).filter (fun s => s ≠ ""))

/-- Outcome of `main` after the workspace lookup: either print a message
and exit with the given status, or hand the assembled command line to
the submission subprocess. -/
inductive MainOutcome where
  | failure : String → Nat → MainOutcome
  | submit : String → MainOutcome
deriving Repr, DecidableEq

/-- Function `main` (source lines 147-194) after argument parsing: `lookup` is
the outcome of the workspace-lookup subprocess, `user` is `USER`, `cwd`
is `os.getcwd()`.  `if not workspace_id` treats both `None` and the
empty string as failure. -/
def main (args : Args) (user : Option String) (cwd : String)
    (lookup : Except String String) : MainOutcome :=
  match get_workspace_id args.partition lookup with
  | none => .failure "Failed to retrieve workspace ID." 1
  | some ws =>
    if ws = "" then .failure "Failed to retrieve workspace ID." 1
    else .submit (dlc_full_command args ws user cwd)

/-! ### Concrete argument records used to evaluate `main` at the inputs
named by the claims (field order: job_name, partition, config, dlc_path,
kind, worker_count, worker_gpu, worker_cpu, worker_image, worker_memory,
interactive, shell, conda_env, proxy, env, task_cmds). -/

/-- Flags `--job-name foo --worker-count 2 --worker-gpu 4 --env "A=1;B=2" --
echo hi`, every other flag at its default (in particular
`--shell none`), with `--config cfg` standing for the expanded default
config path. -/
def c1args : Args :=
  ⟨"foo", "llmit", "cfg", "/cpfs01/shared/public/dlc", "PyTorchJob",
    2, 4, 120, "master0:5000/eflops/yehaochen:tears-and-blood1", 800,
    false, "none", "", false, ["A=1;B=2"], ["echo", "hi"]⟩

/-- A configuration exercising every fragment: `--shell bash`,
`--conda-env myenv`, `--proxy`, `--env A=1`, task `echo hi`. -/
def c3args : Args :=
  ⟨"dlc_job", "llmit", "cfg", "/cpfs01/shared/public/dlc", "PyTorchJob",
    1, 8, 120, "img", 800, false, "bash", "myenv", true, ["A=1"],
    ["echo", "hi"]⟩

/-- Same as `c3args` but with the default `--shell none`. -/
def c3noneArgs : Args :=
  ⟨"dlc_job", "llmit", "cfg", "/cpfs01/shared/public/dlc", "PyTorchJob",
    1, 8, 120, "img", 800, false, "none", "myenv", true, ["A=1"],
    ["echo", "hi"]⟩

/-- Defaults-only record used by witnesses (config path expanded with
user `u`). -/
def defaultishArgs : Args :=
  ⟨"dlc_job", "llmit", "/cpfs01/user/u/.dlc/config",
    "/cpfs01/shared/public/dlc", "PyTorchJob", 1, 8, 120,
    "master0:5000/eflops/yehaochen:tears-and-blood1", 800, false,
    "none", "", false, [], []⟩

/-! ## Lemmas about the environment dictionary -/

theorem any_beq_iff (d : List (String × String)) (k : String) :
    (d.any fun kv => kv.1 == k) = true ↔ k ∈ keys d := by
  simp [List.any_eq_true, keys, List.mem_map]

theorem keys_dictInsert (d : List (String × String)) (k v : String) :
    keys (dictInsert d k v) = if k ∈ keys d then keys d else keys d ++ [k] := by
  unfold dictInsert
  by_cases h : k ∈ keys d
  · rw [if_pos ((any_beq_iff d k).2 h), if_pos h]
    unfold keys
    rw [List.map_map]
    apply List.map_congr_left
    intro kv _
    by_cases hb : kv.1 = k
    · simp [hb]
    · simp [hb]
  · rw [if_neg, if_neg h]
    · simp [keys]
    · intro hc
      exact h ((any_beq_iff d k).1 hc)

theorem mem_dictInsert (d : List (String × String)) (k v k' v' : String) :
    (k', v') ∈ dictInsert d k v ↔
      ((k' = k ∧ v' = v) ∨ (k' ≠ k ∧ (k', v') ∈ d)) := by
  unfold dictInsert
  by_cases h : k ∈ keys d
  · rw [if_pos ((any_beq_iff d k).2 h)]
    rw [List.mem_map]
    constructor
    · rintro ⟨kv, hm, he⟩
      by_cases hb : kv.1 = k
      · rw [if_pos (by simpa using hb)] at he
        left
        exact ⟨(congrArg Prod.fst he).symm, (congrArg Prod.snd he).symm⟩
      · rw [if_neg (by simpa using hb)] at he
        right
        subst he
        exact ⟨hb, hm⟩
    · rintro (⟨hk, hv⟩ | ⟨hk, hm⟩)
      · subst hk; subst hv
        rcases (by simpa [keys, List.mem_map] using h :
          ∃ kv ∈ d, kv.1 = k') with ⟨kv, hm, hb⟩
        exact ⟨kv, hm, by rw [if_pos (by simpa using hb)]⟩
      · exact ⟨(k', v'), hm, by rw [if_neg (by simpa using hk)]⟩
  · rw [if_neg fun hc => h ((any_beq_iff d k).1 hc)]
    rw [List.mem_append]
    constructor
    · rintro (hm | hm)
      · right
        refine ⟨fun hk => h ?_, hm⟩
        subst hk
        exact List.mem_map_of_mem Prod.fst hm
      · left
        simpa using hm
    · rintro (⟨hk, hv⟩ | ⟨_, hm⟩)
      · subst hk; subst hv
        simp
      · exact Or.inl hm

theorem foldl_dictInsert_mem (ps : List (String × String)) :
    ∀ (d : List (String × String)) (k v : String),
      ((k, v) ∈ ps.foldl (fun d kv => dictInsert d kv.1 kv.2) d ↔
        (lastVal k ps = some v ∨ (lastVal k ps = none ∧ (k, v) ∈ d))) := by
  induction ps with
  | nil =>
    intro d k v
    simp [lastVal]
  | cons q ps ih =>
    intro d k v
    rw [List.foldl_cons, ih]
    cases h : lastVal k ps with
    | some v0 =>
      simp [lastVal, h]
    | none =>
      rw [mem_dictInsert]
      by_cases hk : q.1 = k
      · simp [lastVal, h, hk, eq_comm]
      · simp [lastVal, h, hk]
        constructor
        · rintro (⟨h1, h2⟩ | ⟨h1, h2⟩)
          · exact absurd h1.symm hk
          · exact h2
        · intro hm
          exact Or.inr ⟨fun h' => hk h'.symm, hm⟩

theorem keys_foldl_dictInsert (ps : List (String × String)) :
    ∀ d : List (String × String),
      keys (ps.foldl (fun d kv => dictInsert d kv.1 kv.2) d) =
        keys d ++ dedupFirst
          ((ps.map Prod.fst).filter (fun x => decide (x ∉ keys d))) := by
  induction ps with
  | nil =>
    intro d
    simp [dedupFirst]
  | cons q ps ih =>
    intro d
    rw [List.foldl_cons, ih, keys_dictInsert, List.map_cons,
      List.filter_cons]
    by_cases hm : q.1 ∈ keys d
    · rw [if_pos hm, if_neg (by simpa using hm)]
    · rw [if_neg hm, if_pos (by simpa using hm)]
      rw [dedupFirst, List.append_assoc, List.singleton_append]
      congr 2
      refine congrArg dedupFirst ?_
      rw [List.filter_filter]
      refine List.filter_congr fun x _ => ?_
      by_cases h1 : x ∈ keys d <;> by_cases h2 : x = q.1 <;>
        simp [h1, h2, List.mem_append]

theorem inner_foldl_eq (ps : List String) :
    ∀ d : List (String × String),
      ps.foldl (fun d pair =>
          match parse_pair pair with
          | some kv => dictInsert d kv.1 kv.2
          | none => d) d =
        (ps.filterMap parse_pair).foldl (fun d kv => dictInsert d kv.1 kv.2) d := by
  induction ps with
  | nil =>
    intro d
    rfl
  | cons p ps ih =>
    intro d
    rw [List.foldl_cons, List.filterMap_cons]
    cases h : parse_pair p with
    | none =>
      simp only [h]
      exact ih d
    | some kv =>
      simp only [h, List.foldl_cons]
      exact ih (dictInsert d kv.1 kv.2)

theorem parsedPairs_cons (item : String) (l : List String) :
    parsedPairs (item :: l) = pairsOfItem item ++ parsedPairs l := by
  simp [parsedPairs]

theorem outer_foldl_eq (l : List String) :
    ∀ d : List (String × String),
      l.foldl (fun env_dict item =>
          (pySplitChar ';' item).foldl (fun d pair =>
            match parse_pair pair with
            | some kv => dictInsert d kv.1 kv.2
            | none => d) env_dict) d =
        (parsedPairs l).foldl (fun d kv => dictInsert d kv.1 kv.2) d := by
  induction l with
  | nil =>
    intro d
    rfl
  | cons item l ih =>
    intro d
    rw [List.foldl_cons, inner_foldl_eq, ih, parsedPairs_cons,
      List.foldl_append]
    rfl

theorem parse_env_vars_eq_pyDict (l : List String) :
    parse_env_vars l = pyDict (parsedPairs l) :=
  outer_foldl_eq l []

/-! ## Lemmas about stripping and about segments without an equals sign -/

theorem dropWhile_dropWhile (p : Char → Bool) (l : List Char) :
    (l.dropWhile p).dropWhile p = l.dropWhile p := by
  induction l with
  | nil => rfl
  | cons c t ih =>
    by_cases h : p c
    · simp [List.dropWhile_cons, h, ih]
    · simp [List.dropWhile_cons, h]

theorem dropWhile_head?_not (p : Char → Bool) (l : List Char) (c : Char)
    (h : (l.dropWhile p).head? = some c) : p c = false := by
  induction l with
  | nil => cases h
  | cons a t ih =>
    by_cases ha : p a
    · rw [List.dropWhile_cons, if_pos ha] at h
      exact ih h
    · rw [List.dropWhile_cons, if_neg ha] at h
      cases h
      simpa using ha

theorem dropWhile_eq_self_of_head? (p : Char → Bool) (l : List Char)
    (h : ∀ c, l.head? = some c → p c = false) : l.dropWhile p = l := by
  cases l with
  | nil => rfl
  | cons c t =>
    rw [List.dropWhile_cons, if_neg]
    rw [h c rfl]
    simp

theorem stripList_idem (l : List Char) :
    stripList (stripList l) = stripList l := by
  unfold stripList
  have h1 : (((l.dropWhile isPyWs).reverse.dropWhile isPyWs).reverse).dropWhile isPyWs
      = ((l.dropWhile isPyWs).reverse.dropWhile isPyWs).reverse := by
    apply dropWhile_eq_self_of_head?
    intro c hc
    rw [List.head?_reverse] at hc
    have hr_ne : (l.dropWhile isPyWs).reverse.dropWhile isPyWs ≠ [] := by
      intro h0
      rw [h0] at hc
      cases hc
    have h2 : ((l.dropWhile isPyWs).reverse).getLast? = some c := by
      conv_lhs =>
        rw [← List.takeWhile_append_dropWhile isPyWs
          ((l.dropWhile isPyWs).reverse)]
      rw [List.getLast?_append_of_ne_nil _ hr_ne]
      exact hc
    rw [List.getLast?_reverse] at h2
    exact dropWhile_head?_not isPyWs l c h2
  rw [h1, List.reverse_reverse, dropWhile_dropWhile]

theorem pyStrip_idem (s : String) : pyStrip (pyStrip s) = pyStrip s := by
  show String.mk (stripList (String.mk (stripList s.toList)).toList) = _
  have h : (String.mk (stripList s.toList)).toList = stripList s.toList := rfl
  rw [h, stripList_idem]
  rfl

theorem splitFirstAux_eq_none (sep : Char) (cs : List Char) :
    ∀ acc, splitFirstAux sep cs acc = none ↔ ∀ c ∈ cs, c ≠ sep := by
  induction cs with
  | nil =>
    intro acc
    simp [splitFirstAux]
  | cons c cs ih =>
    intro acc
    by_cases h : c = sep
    · simp [splitFirstAux, h]
    · simp [splitFirstAux, h, ih]

theorem parse_pair_eq_none (pair : String) :
    parse_pair pair = none ↔ '=' ∉ pair.toList := by
  have hiff := splitFirstAux_eq_none '=' pair.toList []
  constructor
  · intro hn hm
    cases h : splitFirstAux '=' pair.toList [] with
    | none => exact (hiff.1 h '=' hm) rfl
    | some kv =>
      unfold parse_pair at hn
      rw [h] at hn
      cases hn
  · intro hm
    unfold parse_pair
    rw [hiff.2 (fun c hc he => hm (he ▸ hc))]

theorem pairsOfItem_eq_nil (item : String)
    (h : ∀ pair ∈ pySplitChar ';' item, '=' ∉ pair.toList) :
    pairsOfItem item = [] := by
  unfold pairsOfItem
  rw [List.filterMap_eq_nil_iff]
  exact fun pair hp => (parse_pair_eq_none pair).2 (h pair hp)

theorem lastVal_mem (k v : String) (ps : List (String × String))
    (h : lastVal k ps = some v) : (k, v) ∈ ps := by
  induction ps with
  | nil => cases h
  | cons q ps ih =>
    simp only [lastVal] at h
    cases h' : lastVal k ps with
    | some v0 =>
      rw [h'] at h
      injection h with hv
      subst hv
      exact List.mem_cons_of_mem _ (ih h')
    | none =>
      rw [h'] at h
      by_cases hk : q.1 = k
      · rw [if_pos hk] at h
        injection h with hv
        subst hv
        rw [← hk]
        exact List.mem_cons_self _ _
      · rw [if_neg hk] at h
        cases h

theorem mem_parsedPairs (l : List String) (k v : String)
    (h : (k, v) ∈ parsedPairs l) :
    ∃ pair : String, parse_pair pair = some (k, v) := by
  unfold parsedPairs at h
  rw [List.mem_flatten] at h
  rcases h with ⟨sub, hsub, hmem⟩
  rw [List.mem_map] at hsub
  rcases hsub with ⟨item, _, rfl⟩
  unfold pairsOfItem at hmem
  rw [List.mem_filterMap] at hmem
  rcases hmem with ⟨pair, _, hp⟩
  exact ⟨pair, hp⟩

theorem parse_pair_strip (pair : String) (k v : String)
    (h : parse_pair pair = some (k, v)) : pyStrip k = k ∧ pyStrip v = v := by
  unfold parse_pair at h
  cases hs : splitFirstAux '=' pair.toList [] with
  | none =>
    rw [hs] at h
    cases h
  | some kv =>
    rw [hs] at h
    injection h with h2
    have hk : k = pyStrip kv.1 := (congrArg Prod.fst h2).symm
    have hv : v = pyStrip kv.2 := (congrArg Prod.snd h2).symm
    rw [hk, hv]
    exact ⟨pyStrip_idem kv.1, pyStrip_idem kv.2⟩

/-! ## Claim C2 -/

/-- C2: `parse_env_vars` splits each `--env` value on `;` and each
segment on the first `=`, and yields a mapping in which each VALUE is
keyed by its KEY; on duplicate keys the last value given wins, and the
export statements are emitted in the insertion order of the surviving
keys (the first-occurrence order of those keys in reading order). -/
theorem c2_parse_env_vars_last_wins_order (l : List String) :
    keys (parse_env_vars l) = dedupFirst ((parsedPairs l).map Prod.fst)
    ∧ (∀ k v : String,
        ((k, v) ∈ parse_env_vars l ↔ lastVal k (parsedPairs l) = some v))
    ∧ env_var_cmds l = String.intercalate " && "
        ((parse_env_vars l).map (fun kv => "export " ++ kv.1 ++ "=" ++ kv.2)) := by
  refine ⟨?_, ?_, rfl⟩
  · rw [parse_env_vars_eq_pyDict, pyDict, keys_foldl_dictInsert]
    rw [show keys ([] : List (String × String)) = [] from rfl,
      List.nil_append]
    congr 1
    refine List.filter_eq_self.2 fun a _ => ?_
    simp [keys]
  · intro k v
    rw [parse_env_vars_eq_pyDict, pyDict, foldl_dictInsert_mem]
    simp

/-! ## Claim C9 -/

/-- C9: `parse_env_vars` is total on every list of strings: a
`;`-separated segment containing no `=` (including empty segments from
trailing or doubled semicolons) is silently dropped, surviving keys and
values carry no surrounding whitespace (stripping them again changes
nothing), and the empty input yields the empty mapping. -/
theorem c9_parse_env_vars_total :
    parse_env_vars [] = []
    ∧ (∀ (l1 : List String) (item : String) (l2 : List String),
        (∀ pair ∈ pySplitChar ';' item, '=' ∉ pair.toList) →
          parse_env_vars (l1 ++ item :: l2) = parse_env_vars (l1 ++ l2))
    ∧ (∀ (l : List String) (k v : String), (k, v) ∈ parse_env_vars l →
        pyStrip k = k ∧ pyStrip v = v) := by
  refine ⟨rfl, ?_, ?_⟩
  · intro l1 item l2 h
    rw [parse_env_vars_eq_pyDict, parse_env_vars_eq_pyDict]
    congr 1
    unfold parsedPairs
    rw [List.map_append, List.map_cons, List.flatten_append,
      List.flatten_cons, pairsOfItem_eq_nil item h, List.nil_append,
      ← List.flatten_append, ← List.map_append]
  · intro l k v hm
    rw [parse_env_vars_eq_pyDict, pyDict, foldl_dictInsert_mem] at hm
    rcases hm with hlast | ⟨-, hmem⟩
    · rcases mem_parsedPairs l k v (lastVal_mem k v _ hlast) with ⟨pair, hp⟩
      exact parse_pair_strip pair k v hp
    · cases hmem

/-- C9 witness: dropping an `=`-less `--env` value (with empty and
whitespace segments), and stripping idempotence, at concrete inputs. -/
theorem c9_witness :
    parse_env_vars ["A=1", " ;; no equals ", "B=2"] =
      parse_env_vars ["A=1", "B=2"]
    ∧ (pyStrip "A" = "A" ∧ pyStrip "1" = "1") :=
  ⟨c9_parse_env_vars_total.2.1 ["A=1"] " ;; no equals " ["B=2"] (by decide),
    c9_parse_env_vars_total.2.2 ["A=1"] "A" "1" (by decide)⟩

/-! ## Claim C4 -/

theorem append_left_ne_empty (s t : String) (h : s.data ≠ []) :
    s ++ t ≠ "" := by
  intro he
  apply h
  have h2 := congrArg String.data he
  rw [String.data_append] at h2
  exact (List.append_eq_nil.1 h2).1

/-- C4: for every worker-memory value `M`, the value passed to the
external tool's `--worker_shared_memory` flag is exactly the floor
division `M // 2` (characterised by `2*q ≤ M < 2*q + 2`), and the flag
survives the empty-string filter into the final command line. -/
theorem c4_worker_shared_memory (args : Args) (ws : String)
    (user : Option String) (cwd : String) :
    ("--worker_shared_memory " ++ toString (Int.fdiv args.worker_memory 2)) ∈
      (dlc_command args ws user cwd).filter (fun s => s ≠ "")
    ∧ 2 * Int.fdiv args.worker_memory 2 ≤ args.worker_memory
    ∧ args.worker_memory < 2 * Int.fdiv args.worker_memory 2 + 2 := by
  refine ⟨?_, ?_, ?_⟩
  · rw [List.mem_filter]
    constructor
    · show _ ∈ dlc_command args ws user cwd
      unfold dlc_command
      exact .tail _ (.tail _ (.tail _ (.tail _ (.tail _ (.tail _ (.tail _
        (.tail _ (.tail _ (.tail _ (.head _))))))))))
    · rw [decide_eq_true_eq]
      exact append_left_ne_empty _ _ (by decide)
  · rw [Int.fdiv_eq_ediv args.worker_memory (by norm_num)]
    omega
  · rw [Int.fdiv_eq_ediv args.worker_memory (by norm_num)]
    omega

/-! ## Claim C6 -/

/-- C6: a conda environment name that is neither in the discovered
environment list nor an existing filesystem path nor the empty string is
rejected with a usage error naming the available environments; a name in
the list, an existing path, or the empty string is returned unchanged. -/
theorem c6_validate_conda_env (envs : List String)
    (path_exists : String → Bool) (v : String) :
    (v ∉ envs → path_exists v = false → v ≠ "" →
      validate_conda_env envs path_exists v =
        .error (v ++ " is not a valid conda environment. Available: " ++
          String.intercalate ", " envs))
    ∧ (v ∈ envs ∨ path_exists v = true ∨ v = "" →
      validate_conda_env envs path_exists v = .ok v) := by
  constructor
  · intro h1 h2 h3
    unfold validate_conda_env
    rw [if_neg (by simp [h1, h2, h3])]
  · intro h
    unfold validate_conda_env
    have hcond : (envs.contains v || path_exists v || v == "") = true := by
      rcases h with h | h | h <;> simp [h]
    rw [if_pos hcond]

/-- C6 witness: a name outside the discovered list `["base", "torch"]`
that is not a path is rejected with the message naming both
environments; a listed name is accepted. -/
theorem c6_witness :
    validate_conda_env ["base", "torch"] (fun _ => false) "foo" =
      .error "foo is not a valid conda environment. Available: base, torch"
    ∧ validate_conda_env ["base", "torch"] (fun _ => false) "base" =
      .ok "base" := by
  constructor
  · have h := (c6_validate_conda_env ["base", "torch"] (fun _ => false)
      "foo").1 (by decide) rfl (by decide)
    rw [h]
    rfl
  · exact (c6_validate_conda_env ["base", "torch"] (fun _ => false)
      "base").2 (Or.inl (by decide))

/-! ## Claim C7 -/

/-- C7: when the workspace-lookup subprocess raises a subprocess error,
`main` reports the failure and exits with status 1, and never reaches
the job-submission subprocess. -/
theorem c7_lookup_error_exits (args : Args) (user : Option String)
    (cwd : String) (e : String) :
    main args user cwd (.error e) =
      .failure "Failed to retrieve workspace ID." 1
    ∧ ∀ cmd, main args user cwd (.error e) ≠ .submit cmd :=
  ⟨rfl, fun _ h => MainOutcome.noConfusion h⟩

/-! ## Claim C8 -/

/-- C8: when the conda environment-listing subprocess raises a
subprocess error, `get_conda_envs` catches it and returns the empty
list; the failure is not propagated. -/
theorem c8_conda_error_returns_empty (e : String) :
    get_conda_envs (.error e) = .ok []
    ∧ ∀ msg, get_conda_envs (.error e) ≠ .error msg :=
  ⟨rfl, fun _ h => Except.noConfusion h⟩

/-! ## Claim C1 -/

/-- C1: evaluating `main` at
`--job-name foo --worker-count 2 --worker-gpu 4 --env "A=1;B=2" -- echo hi`
with every other flag at its default: the submission line does contain
`--name foo`, `--worker_count 2` and `--worker_gpu 4`, but because
`--shell` defaults to `none` the conditional expression on source lines
172-174 makes the composed command empty, so the embedded `--command`
string is `''` and contains neither the exports nor `cd <cwd> && echo
hi`. -/
theorem c1_shell_none_empty_command :
    full_command c1args (some "u") "/cwd" = ""
    ∧ main c1args (some "u") "/cwd" (.ok "| llmit | ws123 |") =
      .submit ("/cpfs01/shared/public/dlc create job --config cfg " ++
        "--name foo --kind PyTorchJob --worker_count 2 --worker_cpu 120 " ++
        "--worker_gpu 4 --worker_memory 800 " ++
        "--worker_image master0:5000/eflops/yehaochen:tears-and-blood1 " ++
        "--workspace_id ws123 --worker_shared_memory 400 --command ''") := by
  constructor
  · rfl
  · set_option maxRecDepth 100000 in decide

/-! ## Claim C3 -/

/-- C3: the environment-setup string is built as the ordered non-empty
fragments (export HOME, proxy, user exports, shell, conda) joined by
`" && "`, but the working-directory change and the task command are
appended only when a shell is configured: with the default
`--shell none` the composed command is the empty string (conditional
expression on source lines 172-174), while with `--shell bash` they are
appended (together with the closing quote of the shell fragment). -/
theorem c3_fragments_joined_append_only_with_shell :
    full_env_cmd c3noneArgs (some "u") =
      "export HOME=/cpfs01/user/u && " ++
        "export http_proxy=http://58.34.83.134:31128 && " ++
        "export https_proxy=http://58.34.83.134:31128 && " ++
        "export A=1 && conda activate myenv"
    ∧ full_command c3noneArgs (some "u") "/cwd" = ""
    ∧ full_command c3args (some "u") "/cwd" =
      full_env_cmd c3args (some "u") ++ " && cd /cwd && echo hi\"" := by
  refine ⟨?_, rfl, ?_⟩
  · set_option maxRecDepth 100000 in decide
  · set_option maxRecDepth 100000 in decide

/-! ## Lemmas about the regex matcher -/

theorem ws_not_word (c : Char) (h : isPyWs c = true) : isWordChar c = false := by
  unfold isPyWs at h
  simp only [Bool.or_eq_true, decide_eq_true_eq] at h
  rcases h with ((((h | h) | h) | h) | h) | h <;> subst h <;> decide

theorem word_not_ws (c : Char) (h : isWordChar c = true) : isPyWs c = false := by
  cases hw : isPyWs c
  · rfl
  · rw [ws_not_word c hw] at h
    cases h

theorem allP_dropWhile_append (p : Char → Bool) (w l : List Char)
    (h : ∀ c ∈ w, p c = true) : (w ++ l).dropWhile p = l.dropWhile p := by
  induction w with
  | nil => rfl
  | cons c w ih =>
    rw [List.cons_append, List.dropWhile_cons,
      if_pos (h c (List.mem_cons_self c w))]
    exact ih fun c hc => h c (List.mem_cons_of_mem _ hc)

theorem allP_takeWhile_append (p : Char → Bool) (w l : List Char)
    (h : ∀ c ∈ w, p c = true) : (w ++ l).takeWhile p = w ++ l.takeWhile p := by
  induction w with
  | nil => rfl
  | cons c w ih =>
    rw [List.cons_append, List.takeWhile_cons,
      if_pos (h c (List.mem_cons_self c w)), List.cons_append,
      ih fun c hc => h c (List.mem_cons_of_mem _ hc)]

theorem dropWhile_cons_neg (p : Char → Bool) (c : Char) (l : List Char)
    (h : p c = false) : (c :: l).dropWhile p = c :: l := by
  rw [List.dropWhile_cons, if_neg (by simp [h])]

theorem takeWhile_cons_neg (p : Char → Bool) (c : Char) (l : List Char)
    (h : p c = false) : (c :: l).takeWhile p = [] := by
  rw [List.takeWhile_cons, if_neg (by simp [h])]

theorem takeWhile_word_pipe_after (w4 rest : List Char) (hw4 : AllWs w4) :
    (w4 ++ '|' :: rest).takeWhile isWordChar = [] := by
  cases w4 with
  | nil => exact takeWhile_cons_neg _ _ _ (by decide)
  | cons c w =>
    rw [List.cons_append]
    exact takeWhile_cons_neg _ _ _
      (ws_not_word c (hw4 c (List.mem_cons_self _ _)))

theorem dropWhile_word_pipe_after (w4 rest : List Char) (hw4 : AllWs w4) :
    (w4 ++ '|' :: rest).dropWhile isWordChar = w4 ++ '|' :: rest := by
  cases w4 with
  | nil => exact dropWhile_cons_neg _ _ _ (by decide)
  | cons c w =>
    rw [List.cons_append]
    rw [dropWhile_cons_neg _ _ _
      (ws_not_word c (hw4 c (List.mem_cons_self _ _)))]

theorem isPrefixOf_append_self (p t : List Char) :
    p.isPrefixOf (p ++ t) = true := by
  induction p with
  | nil => simp [List.isPrefixOf]
  | cons c p ih => simp [List.isPrefixOf, ih]

theorem exists_of_isPrefixOf (p : List Char) :
    ∀ l : List Char, p.isPrefixOf l = true → ∃ t, l = p ++ t := by
  induction p with
  | nil => exact fun l _ => ⟨l, rfl⟩
  | cons c p ih =>
    intro l h
    cases l with
    | nil => cases h
    | cons b l =>
      simp only [List.isPrefixOf, Bool.and_eq_true, beq_iff_eq] at h
      rcases h with ⟨rfl, h2⟩
      rcases ih l h2 with ⟨t, rfl⟩
      exact ⟨t, rfl⟩

theorem matchTail_complete (w2 w3 w4 cap rest : List Char)
    (hw2 : AllWs w2) (hw3 : AllWs w3) (hw4 : AllWs w4)
    (hcap : AllWord cap) (hne : cap ≠ []) :
    matchTail (w2 ++ '|' :: (w3 ++ (cap ++ (w4 ++ '|' :: rest)))) = some cap := by
  obtain ⟨c0, cap', rfl⟩ : ∃ c0 cap', cap = c0 :: cap' := by
    cases cap with
    | nil => exact absurd rfl hne
    | cons a b => exact ⟨a, b, rfl⟩
  have hc0w : isWordChar c0 = true := hcap c0 (List.mem_cons_self _ _)
  have e1 : (w2 ++ '|' :: (w3 ++ (c0 :: cap' ++ (w4 ++ '|' :: rest)))).dropWhile
      isPyWs = '|' :: (w3 ++ (c0 :: cap' ++ (w4 ++ '|' :: rest))) := by
    rw [allP_dropWhile_append _ _ _ hw2]
    exact dropWhile_cons_neg _ _ _ (by decide)
  have e2 : (w3 ++ (c0 :: cap' ++ (w4 ++ '|' :: rest))).dropWhile isPyWs
      = c0 :: (cap' ++ (w4 ++ '|' :: rest)) := by
    rw [allP_dropWhile_append _ _ _ hw3]
    exact dropWhile_cons_neg _ _ _ (word_not_ws c0 hc0w)
  have e3 : (c0 :: (cap' ++ (w4 ++ '|' :: rest))).takeWhile isWordChar
      = c0 :: cap' := by
    rw [show c0 :: (cap' ++ (w4 ++ '|' :: rest))
        = (c0 :: cap') ++ (w4 ++ '|' :: rest) from rfl]
    rw [allP_takeWhile_append _ _ _ hcap,
      takeWhile_word_pipe_after w4 rest hw4, List.append_nil]
  have e4 : (c0 :: (cap' ++ (w4 ++ '|' :: rest))).dropWhile isWordChar
      = w4 ++ '|' :: rest := by
    rw [show c0 :: (cap' ++ (w4 ++ '|' :: rest))
        = (c0 :: cap') ++ (w4 ++ '|' :: rest) from rfl]
    rw [allP_dropWhile_append _ _ _ hcap]
    exact dropWhile_word_pipe_after w4 rest hw4
  have e5 : (w4 ++ '|' :: rest).dropWhile isPyWs = '|' :: rest := by
    rw [allP_dropWhile_append _ _ _ hw4]
    exact dropWhile_cons_neg _ _ _ (by decide)
  unfold matchTail
  simp only [e1, List.head?_cons, List.tail_cons, e2, e3, e4, e5]
  simp [hne]

theorem matchTail_sound (cs cap : List Char) (h : matchTail cs = some cap) :
    TailShape cs cap := by
  unfold matchTail at h
  cases hd : cs.dropWhile isPyWs with
  | nil =>
    rw [hd] at h
    cases h
  | cons c cs2 =>
    simp only [hd, List.head?_cons, List.tail_cons, Option.some.injEq] at h
    by_cases hc : c = '|'
    case neg =>
      rw [if_neg hc] at h
      cases h
    case pos =>
      subst hc
      rw [if_pos rfl] at h
      by_cases hcape : (cs2.dropWhile isPyWs).takeWhile isWordChar = []
      · rw [if_pos hcape] at h
        cases h
      · rw [if_neg hcape] at h
        cases hd2 : ((cs2.dropWhile isPyWs).dropWhile isWordChar).dropWhile
            isPyWs with
        | nil =>
          rw [hd2] at h
          cases h
        | cons c2 t =>
          simp only [hd2, List.head?_cons, Option.some.injEq] at h
          by_cases hc2 : c2 = '|'
          case neg =>
            rw [if_neg hc2] at h
            cases h
          case pos =>
            subst hc2
            rw [if_pos rfl] at h
            have hcapeq : (cs2.dropWhile isPyWs).takeWhile isWordChar = cap :=
              Option.some.inj h
            refine ⟨cs.takeWhile isPyWs, cs2.takeWhile isPyWs,
              ((cs2.dropWhile isPyWs).dropWhile isWordChar).takeWhile isPyWs,
              t, ?_, ?_, ?_, ?_, ?_, ?_⟩
            · conv_lhs => rw [← List.takeWhile_append_dropWhile isPyWs cs, hd]
              congr 1
              conv_lhs =>
                rw [← List.takeWhile_append_dropWhile isPyWs cs2]
              congr 1
              conv_lhs =>
                rw [← List.takeWhile_append_dropWhile isWordChar
                  (cs2.dropWhile isPyWs), hcapeq]
              congr 1
              conv_lhs =>
                rw [← List.takeWhile_append_dropWhile isPyWs
                  ((cs2.dropWhile isPyWs).dropWhile isWordChar), hd2]
            · exact fun c hc => List.mem_takeWhile_imp hc
            · exact fun c hc => List.mem_takeWhile_imp hc
            · exact fun c hc => List.mem_takeWhile_imp hc
            · rw [← hcapeq]
              exact hcape
            · intro c hc
              rw [← hcapeq] at hc
              exact List.mem_takeWhile_imp hc

theorem tryOffsets_complete (p rest idr : List Char) :
    ∀ k j : Nat, j ≤ k → p.isPrefixOf (rest.drop j) = true →
      matchTail ((rest.drop j).drop p.length) = some idr →
      ∃ r, tryOffsets p rest k = some r := by
  intro k
  induction k with
  | zero =>
    intro j hj hpre hmt
    have hj0 : j = 0 := Nat.le_zero.1 hj
    subst hj0
    refine ⟨idr, ?_⟩
    unfold tryOffsets
    rw [List.drop_zero] at hpre hmt
    rw [if_pos hpre]
    exact hmt
  | succ k ih =>
    intro j hj hpre hmt
    unfold tryOffsets
    by_cases hj1 : j = k + 1
    · subst hj1
      refine ⟨idr, ?_⟩
      simp only [if_pos hpre, hmt, Option.isSome_some, if_pos]
    · have hj2 : j ≤ k := Nat.lt_succ_iff.1 (lt_of_le_of_ne hj hj1)
      rcases ih j hj2 hpre hmt with ⟨r, hr⟩
      cases hcand : (if p.isPrefixOf (rest.drop (k + 1)) then
          matchTail ((rest.drop (k + 1)).drop p.length) else none) with
      | some r2 =>
        refine ⟨r2, ?_⟩
        simp only [hcand, Option.isSome_some, if_pos]
      | none =>
        refine ⟨r, ?_⟩
        simp only [hcand, Option.isSome_none, Bool.false_eq_true, if_false]
        exact hr

theorem tryOffsets_sound (p rest : List Char) :
    ∀ (k : Nat) (r : List Char), tryOffsets p rest k = some r →
      ∃ j, j ≤ k ∧ p.isPrefixOf (rest.drop j) = true ∧
        matchTail ((rest.drop j).drop p.length) = some r := by
  intro k
  induction k with
  | zero =>
    intro r h
    unfold tryOffsets at h
    by_cases hpre : p.isPrefixOf rest
    · rw [if_pos hpre] at h
      refine ⟨0, Nat.le_refl 0, ?_, ?_⟩
      · rw [List.drop_zero]
        exact hpre
      · rw [List.drop_zero]
        exact h
    · rw [if_neg hpre] at h
      cases h
  | succ k ih =>
    intro r h
    unfold tryOffsets at h
    cases hcand : (if p.isPrefixOf (rest.drop (k + 1)) then
        matchTail ((rest.drop (k + 1)).drop p.length) else none) with
    | some r2 =>
      simp only [hcand, Option.isSome_some, if_pos, Option.some.injEq] at h
      subst h
      by_cases hpre : p.isPrefixOf (rest.drop (k + 1))
      · rw [if_pos hpre] at hcand
        exact ⟨k + 1, Nat.le_refl _, hpre, hcand⟩
      · rw [if_neg hpre] at hcand
        cases hcand
    | none =>
      simp only [hcand, Option.isSome_none, Bool.false_eq_true, if_false] at h
      rcases ih r h with ⟨j, hj, hpre, hmt⟩
      exact ⟨j, Nat.le_succ_of_le hj, hpre, hmt⟩

theorem matchAt_complete (p cs cap : List Char) (h : PatternAt p cs cap) :
    ∃ r, matchAt p cs = some r := by
  rcases h with ⟨w1, t, rfl, hw1, hts⟩
  rcases hts with ⟨w2, w3, w4, rest, rfl, hw2, hw3, hw4, hne, hcap⟩
  unfold matchAt
  simp only [List.head?_cons, List.tail_cons, if_pos]
  have hbound : w1.length ≤
      ((w1 ++ (p ++ (w2 ++ '|' :: (w3 ++ (cap ++ (w4 ++ '|' :: rest)))))).takeWhile
        isPyWs).length := by
    rw [allP_takeWhile_append _ _ _ hw1, List.length_append]
    exact Nat.le_add_right _ _
  have hdropj :
      (w1 ++ (p ++ (w2 ++ '|' :: (w3 ++ (cap ++ (w4 ++ '|' :: rest)))))).drop
        w1.length = p ++ (w2 ++ '|' :: (w3 ++ (cap ++ (w4 ++ '|' :: rest)))) :=
    List.drop_left _ _
  have hpre : p.isPrefixOf
      ((w1 ++ (p ++ (w2 ++ '|' :: (w3 ++ (cap ++ (w4 ++ '|' :: rest)))))).drop
        w1.length) = true := by
    rw [hdropj]
    exact isPrefixOf_append_self p _
  have hmt : matchTail
      (((w1 ++ (p ++ (w2 ++ '|' :: (w3 ++ (cap ++ (w4 ++ '|' :: rest)))))).drop
        w1.length).drop p.length) = some cap := by
    rw [hdropj, List.drop_left]
    exact matchTail_complete w2 w3 w4 cap rest hw2 hw3 hw4 hcap hne
  exact tryOffsets_complete p _ cap _ w1.length hbound hpre hmt

theorem matchAt_sound (p cs r : List Char) (h : matchAt p cs = some r) :
    PatternAt p cs r := by
  unfold matchAt at h
  cases cs with
  | nil =>
    rw [if_neg (by simp)] at h
    cases h
  | cons c rest =>
    simp only [List.head?_cons, List.tail_cons, Option.some.injEq] at h
    by_cases hc : c = '|'
    case neg =>
      rw [if_neg hc] at h
      cases h
    case pos =>
      subst hc
      rw [if_pos rfl] at h
      rcases tryOffsets_sound p rest _ r h with ⟨j, hj, hpre, hmt⟩
      have hw1 : AllWs (rest.take j) := by
        intro x hx
        have htake : rest.take j = (rest.takeWhile isPyWs).take j := by
          conv_lhs =>
            rw [← List.takeWhile_append_dropWhile isPyWs rest]
          rw [List.take_append_of_le_length hj]
        rw [htake] at hx
        exact List.mem_takeWhile_imp (List.take_subset j _ hx)
      rcases exists_of_isPrefixOf p (rest.drop j) hpre with ⟨t, ht⟩
      have htt : (rest.drop j).drop p.length = t := by
        rw [ht, List.drop_left]
      refine ⟨rest.take j, t, ?_, hw1, matchTail_sound _ _ (htt ▸ hmt)⟩
      congr 1
      rw [← ht, List.take_append_drop]

theorem reSearch_complete (p cap : List Char) :
    ∀ (cs : List Char) (n : Nat), PatternAt p (cs.drop n) cap →
      ∃ r, reSearch p cs = some r := by
  intro cs
  induction cs with
  | nil =>
    intro n h
    rcases h with ⟨w1, t, heq, -, -⟩
    rw [List.drop_nil] at heq
    cases heq
  | cons c cs ih =>
    intro n h
    unfold reSearch
    cases hm : matchAt p (c :: cs) with
    | some r =>
      refine ⟨r, ?_⟩
      simp only [hm, Option.isSome_some, if_pos]
    | none =>
      simp only [hm, Option.isSome_none, Bool.false_eq_true, if_false]
      cases n with
      | zero =>
        rw [List.drop_zero] at h
        rcases matchAt_complete p _ cap h with ⟨r, hr⟩
        rw [hm] at hr
        cases hr
      | succ n =>
        rw [List.drop_succ_cons] at h
        exact ih n h

theorem reSearch_sound (p : List Char) :
    ∀ (cs r : List Char), reSearch p cs = some r →
      ∃ n, PatternAt p (cs.drop n) r := by
  intro cs
  induction cs with
  | nil =>
    intro r h
    cases h
  | cons c cs ih =>
    intro r h
    unfold reSearch at h
    cases hm : matchAt p (c :: cs) with
    | some r2 =>
      simp only [hm, Option.isSome_some, if_pos, Option.some.injEq] at h
      subst h
      refine ⟨0, ?_⟩
      rw [List.drop_zero]
      exact matchAt_sound p _ r2 hm
    | none =>
      simp only [hm, Option.isSome_none, Bool.false_eq_true, if_false] at h
      rcases ih r h with ⟨n, hn⟩
      refine ⟨n + 1, ?_⟩
      rw [List.drop_succ_cons]
      exact hn

theorem stripList_eq_self_of_word (cap : List Char) (h : AllWord cap) :
    stripList cap = cap := by
  unfold stripList
  have h1 : cap.dropWhile isPyWs = cap := by
    cases cap with
    | nil => rfl
    | cons c t =>
      exact dropWhile_cons_neg _ _ _
        (word_not_ws c (h c (List.mem_cons_self _ _)))
  rw [h1]
  have h2 : cap.reverse.dropWhile isPyWs = cap.reverse := by
    cases hr : cap.reverse with
    | nil => rfl
    | cons c t =>
      refine dropWhile_cons_neg _ _ _ (word_not_ws c (h c ?_))
      have hmem : c ∈ cap.reverse := by
        rw [hr]
        exact List.mem_cons_self _ _
      exact List.mem_reverse.1 hmem
  rw [h2, List.reverse_reverse]

theorem noPattern_of_reSearch_none (p cs : List Char)
    (h : reSearch p cs = none) : ∀ cap, ¬ ContainsPattern p cs cap := by
  intro cap hc
  rcases hc with ⟨n, hn⟩
  rcases reSearch_complete p cap cs n hn with ⟨r, hr⟩
  rw [h] at hr
  cases hr

/-! ## Claim C5 -/

/-- C5: whenever the lookup output contains a line of the form
`| p | id |` (arbitrary whitespace inside the pipes, `id` a non-empty
run of word characters), the pure extraction of `get_workspace_id`
returns an id; the returned id is itself the regex capture group of such
a line, trimming it changes nothing (so it equals the capture group
trimmed of whitespace), and when the text determines the capture
uniquely the returned id is exactly the given one. -/
theorem c5_get_workspace_id_extracts (p text cap : String)
    (h : ContainsPattern p.toList text.toList cap.toList) :
    ∃ rid : String, extract_workspace_id p text = some rid ∧
      ContainsPattern p.toList text.toList rid.toList ∧
      pyStrip rid = rid ∧
      ((∀ cap2 : String,
          ContainsPattern p.toList text.toList cap2.toList → cap2 = cap) →
        rid = cap) := by
  rcases h with ⟨n, hn⟩
  rcases reSearch_complete p.toList cap.toList text.toList n hn with ⟨r, hr⟩
  rcases reSearch_sound p.toList text.toList r hr with ⟨m, hm⟩
  have hword : AllWord r := by
    rcases hm with ⟨w1, t, -, -, ⟨w2, w3, w4, rest, -, -, -, -, -, hw⟩⟩
    exact hw
  have hstrip : stripList r = r := stripList_eq_self_of_word r hword
  refine ⟨String.mk r, ?_, ⟨m, hm⟩, ?_, ?_⟩
  · unfold extract_workspace_id
    rw [hr]
    show some (pyStrip (String.mk r)) = some (String.mk r)
    rw [show pyStrip (String.mk r) = String.mk (stripList r) from rfl, hstrip]
  · show String.mk (stripList (String.mk r).toList) = String.mk r
    rw [show (String.mk r).toList = r from rfl, hstrip]
  · intro huniq
    exact huniq (String.mk r) ⟨m, hm⟩

/-- C5 witness: extraction at the concrete output `| llmit | ws123 |`. -/
theorem c5_witness :
    ∃ rid : String,
      extract_workspace_id "llmit" "| llmit | ws123 |" = some rid ∧
      ContainsPattern "llmit".toList "| llmit | ws123 |".toList rid.toList ∧
      pyStrip rid = rid ∧
      ((∀ cap2 : String,
          ContainsPattern "llmit".toList "| llmit | ws123 |".toList
            cap2.toList → cap2 = "ws123") → rid = "ws123") :=
  c5_get_workspace_id_extracts "llmit" "| llmit | ws123 |" "ws123"
    ⟨0, [' '], " | ws123 |".toList, by decide, by decide,
      [' '], [' '], [' '], [], by decide, by decide, by decide, by decide,
      by decide, by decide⟩

/-! ## Claim C10 -/

/-- C10: when the workspace-lookup subprocess succeeds but its output
contains no line matching the requested partition, `get_workspace_id`
returns `None`, and `main` prints the failure message and exits with
status 1, never reaching the submission subprocess — the same outcome as
a subprocess error. -/
theorem c10_no_match_exits (args : Args) (user : Option String)
    (cwd : String) (stdout : String)
    (h : ∀ cap : List Char,
      ¬ ContainsPattern args.partition.toList stdout.toList cap) :
    get_workspace_id args.partition (.ok stdout) = none
    ∧ main args user cwd (.ok stdout) =
        .failure "Failed to retrieve workspace ID." 1
    ∧ ∀ cmd, main args user cwd (.ok stdout) ≠ .submit cmd := by
  have hex : extract_workspace_id args.partition stdout = none := by
    unfold extract_workspace_id
    cases hrs : reSearch args.partition.toList stdout.toList with
    | none => rfl
    | some r =>
      rcases reSearch_sound _ _ r hrs with ⟨n, hn⟩
      exact absurd ⟨n, hn⟩ (h r)
  have hws : get_workspace_id args.partition (.ok stdout) = none := by
    unfold get_workspace_id
    exact hex
  refine ⟨hws, ?_, ?_⟩
  · unfold main
    rw [hws]
  · intro cmd hc
    unfold main at hc
    rw [hws] at hc
    cases hc

/-- C10 witness: a successful lookup whose output has no matching line
for the default partition exits with status 1. -/
theorem c10_witness :
    get_workspace_id defaultishArgs.partition (.ok "no such table") = none
    ∧ main defaultishArgs (some "u") "/cwd" (.ok "no such table") =
        .failure "Failed to retrieve workspace ID." 1 :=
  have h := c10_no_match_exits defaultishArgs (some "u") "/cwd"
    "no such table"
    (noPattern_of_reSearch_none "llmit".toList "no such table".toList
      (by decide))
  ⟨h.1, h.2.1⟩

end DlcRun
